import Mathlib

/-
  Verification development for the preact-node-system visual node-graph editor.

  Shallow embedding of the interactive graph-editing core:
    - geometry helpers (distancePointToSegment, distance)
    - the bounded undo/redo history store (useHistory.ts)
    - the connection-drag validation chain (useConnectionDrag.ts)
    - the coordinator mutation handlers (NodeSystem: handleNodeMove,
      handleNodeSelect, handleNodeDelete, handleSpliceNode,
      handleCompleteConnection)
    - the keyboard arrow-nudge path (useKeyboardShortcuts.ts)
    - wheel pan/zoom (usePanning.ts)

  Numeric values are modelled as rationals.  Euclidean distances
  (Math.hypot in the source) appear in theorem statements as Real.sqrt of
  a rational squared distance, computed by the executable *Sq functions.
-/

namespace NodeSystemProof

/-- Point from the geometry utility module (`interface Point { x, y }`). -/
structure Point where
  x : ℚ
  y : ℚ
deriving DecidableEq

/-- Squared Euclidean distance: the square of
`distance(a, b) = Math.hypot(a.x - b.x, a.y - b.y)`. -/
def distSq (a b : Point) : ℚ := (a.x - b.x) ^ 2 + (a.y - b.y) ^ 2

/-- Square of `distancePointToSegment(p, a, b)`: transcribes the source
function with the final Math.hypot squared.  The zero-length guard, the
projection parameter `t` clamped by `Math.max(0, Math.min(1, t))` and the
projection point are exactly the source's. -/
def distancePointToSegmentSq (p a b : Point) : ℚ :=
  let l2 := (b.x - a.x) ^ 2 + (b.y - a.y) ^ 2
  if l2 = 0 then (p.x - a.x) ^ 2 + (p.y - a.y) ^ 2
  else
    let t0 := ((p.x - a.x) * (b.x - a.x) + (p.y - a.y) * (b.y - a.y)) / l2
    let t := max 0 (min 1 t0)
    let projectionX := a.x + t * (b.x - a.x)
    let projectionY := a.y + t * (b.y - a.y)
    (p.x - projectionX) ^ 2 + (p.y - projectionY) ^ 2

/-- HistoryState from useHistory.ts: `{ past, present, future }`. -/
structure HistoryState (T : Type) where
  past : List T
  present : T
  future : List T
deriving DecidableEq

/-- `set(newPresent, { replace })` from useHistory.ts.  `replace` overwrites
`present` only; otherwise the current present is pushed onto `past` (the
oldest entry shifted off when the length would exceed `maxHistory`),
`present` becomes `newPresent` and `future` is cleared.  The NodeSystem
coordinator instantiates `maxHistory = 50` (the default). -/
def histSet {T : Type} (maxHistory : Nat) (curr : HistoryState T) (newPresent : T)
    (replace : Bool) : HistoryState T :=
  if replace then { curr with present := newPresent }
  else
    let newPast := curr.past ++ [curr.present]
    let newPast2 := if newPast.length > maxHistory then newPast.tail else newPast
    { past := newPast2, present := newPresent, future := [] }

/-- `undo()` from useHistory.ts: no-op when `past` is empty; otherwise pops
the last past entry into `present` and pushes the previous present onto the
front of `future`. -/
def histUndo {T : Type} (curr : HistoryState T) : HistoryState T :=
  match curr.past.getLast? with
  | none => curr
  | some previous =>
      { past := curr.past.dropLast, present := previous,
        future := curr.present :: curr.future }

/-- `redo()` from useHistory.ts: no-op when `future` is empty; otherwise
takes the first future entry as `present` and appends the previous present
to `past`. -/
def histRedo {T : Type} (curr : HistoryState T) : HistoryState T :=
  match curr.future with
  | [] => curr
  | next :: rest =>
      { past := curr.past ++ [curr.present], present := next, future := rest }

/-- PortDef from Node.ts: `{ name, type }`. -/
structure PortDef where
  name : String
  type : String
deriving DecidableEq

/-- NodeTypeDef from Node.ts. -/
structure NodeTypeDef where
  id : String
  title : Option String
  category : Option String
  inputs : List PortDef
  outputs : List PortDef
  color : Option String
  showOutputs : Option Bool
deriving DecidableEq

/-- NodeData from Node.ts.  Port values (`data: Record<string, any>`) are
opaque to the core; they are modelled by the type parameter `V`. -/
structure NodeData (V : Type) where
  id : String
  type : String
  x : ℚ
  y : ℚ
  width : Option ℚ
  height : Option ℚ
  data : Option (List (String × V))
  selected : Option Bool
deriving DecidableEq

/-- Connection endpoint `{ nodeId, port, portDef? }`.  The TS field names
`from`/`to` of Connection are Lean keywords, so the structure below uses
`fromE`/`toE`. -/
structure Endpoint where
  nodeId : String
  port : String
  portDef : Option PortDef
deriving DecidableEq

/-- Connection from Node.ts (fields `from` and `to`, renamed). -/
structure Connection where
  fromE : Endpoint
  toE : Endpoint
deriving DecidableEq

/-- AppState from NodeSystem.tsx: `{ nodes, connections }`, the history
snapshot type. -/
structure AppState (V : Type) where
  nodes : List (NodeData V)
  connections : List Connection
deriving DecidableEq

/-- NewConnection from useConnectionDrag.ts: `{ from?, to? }` (renamed). -/
structure NewConnection where
  fromE : Option Endpoint
  toE : Option Endpoint
deriving DecidableEq

/-- Port direction tag (`"input" | "output"`). -/
inductive PortDirection
  | input
  | output
deriving DecidableEq

/-- Outcome of `handlePortPointerUp`: the early return when no drag is in
progress, the silent abort on a missing endpoint, a warning message via
`setWarningMessage`, or a committed connection via `onCompleteConnection`. -/
inductive PointerUpOutcome
  | ignored
  | aborted
  | warned (msg : String)
  | committed (c : Connection)
deriving DecidableEq

/-- Endpoint resolution step of `handlePortPointerUp` (lines 120-141):
`fromNodeId/fromPortName/toNodeId/toPortName` are taken from the fixed end
of `newConnection` and the drop target depending on the drop direction.
The JS guard `if (!fromNodeId || !fromPortName || !toNodeId || !toPortName)`
is falsy for `undefined` and for the empty string, so both count as
missing. -/
def resolveEndpoints (nc : NewConnection) (nodeId : String) (portName : String)
    (direction : PortDirection) : Option (String × String × String × String) :=
  let fromNodeId := match direction with
    | .input => nc.fromE.map (fun e => e.nodeId)
    | .output => some nodeId
  let fromPortName := match direction with
    | .input => nc.fromE.map (fun e => e.port)
    | .output => some portName
  let toNodeId := match direction with
    | .input => some nodeId
    | .output => nc.toE.map (fun e => e.nodeId)
  let toPortName := match direction with
    | .input => some portName
    | .output => nc.toE.map (fun e => e.port)
  match fromNodeId, fromPortName, toNodeId, toPortName with
  | some f, some fp, some t, some tp =>
      if f = "" ∨ fp = "" ∨ t = "" ∨ tp = "" then none else some (f, fp, t, tp)
  | _, _, _, _ => none

/-- Validation chain of `handlePortPointerUp` (lines 143-184), in source
order: self-loop, unresolvable node types, undeclared ports, port-type
mismatch, exact duplicate, already-connected input, then commit. -/
def validateConnection {V : Type} (nodes : List (NodeData V))
    (nodeTypes : String → Option NodeTypeDef) (edges : List Connection)
    (f fp t tp : String) : PointerUpOutcome :=
  let fromNodeType := (nodes.find? (fun n => n.id == f)).bind (fun n => nodeTypes n.type)
  let toNodeType := (nodes.find? (fun n => n.id == t)).bind (fun n => nodeTypes n.type)
  if f = t then .warned "Cannot connect a node to itself"
  else
    match fromNodeType, toNodeType with
    | none, _ => .warned "Invalid node types"
    | some _, none => .warned "Invalid node types"
    | some ftd, some ttd =>
      match ftd.outputs.find? (fun pd => pd.name == fp),
            ttd.inputs.find? (fun pd => pd.name == tp) with
      | none, _ => .warned "Port not found in node definition"
      | some _, none => .warned "Port not found in node definition"
      | some fpd, some tpd =>
        if fpd.type ≠ tpd.type then
          .warned ("Cannot connect ports of different types: " ++ fpd.type ++ " and " ++ tpd.type)
        else if edges.any (fun e =>
            e.fromE.nodeId == f && e.fromE.port == fp &&
            e.toE.nodeId == t && e.toE.port == tp) then
          .warned "This connection already exists"
        else if edges.any (fun e => e.toE.nodeId == t && e.toE.port == tp) then
          .warned ("Input port \"" ++ tp ++ "\" is already connected")
        else
          .committed ⟨⟨f, fp, none⟩, ⟨t, tp, none⟩⟩

/-- `handlePortPointerUp` from useConnectionDrag.ts: early return when no
drag is active, silent abort when an endpoint is missing, otherwise the
validation chain. -/
def handlePortPointerUp {V : Type} (nodes : List (NodeData V))
    (nodeTypes : String → Option NodeTypeDef) (edges : List Connection)
    (newConnection : Option NewConnection) (nodeId : String) (port : PortDef)
    (direction : PortDirection) : PointerUpOutcome :=
  match newConnection with
  | none => .ignored
  | some nc =>
    match resolveEndpoints nc nodeId port.name direction with
    | none => .aborted
    | some (f, fp, t, tp) => validateConnection nodes nodeTypes edges f fp t tp

/-- Specification-side pointer-up outcome, transcribed from spec §4.4's
numbered validation list (steps 1-9), independent of the source
transcription above. -/
def specPortPointerUp {V : Type} (nodes : List (NodeData V))
    (nodeTypes : String → Option NodeTypeDef) (edges : List Connection)
    (nc : NewConnection) (nodeId : String) (port : PortDef)
    (direction : PortDirection) : PointerUpOutcome :=
  let fromEnd : Option (String × String) := match direction with
    | .input => nc.fromE.map (fun e => (e.nodeId, e.port))
    | .output => some (nodeId, port.name)
  let toEnd : Option (String × String) := match direction with
    | .input => some (nodeId, port.name)
    | .output => nc.toE.map (fun e => (e.nodeId, e.port))
  match fromEnd, toEnd with
  | none, _ => .aborted
  | _, none => .aborted
  | some (f, fp), some (t, tp) =>
    if f = t then .warned "Cannot connect a node to itself"
    else
      match (nodes.find? (fun n => n.id == f)).bind (fun n => nodeTypes n.type),
            (nodes.find? (fun n => n.id == t)).bind (fun n => nodeTypes n.type) with
      | none, _ => .warned "Invalid node types"
      | some _, none => .warned "Invalid node types"
      | some ftd, some ttd =>
        match ftd.outputs.find? (fun pd => pd.name == fp),
              ttd.inputs.find? (fun pd => pd.name == tp) with
        | none, _ => .warned "Port not found in node definition"
        | some _, none => .warned "Port not found in node definition"
        | some fpd, some tpd =>
          if fpd.type ≠ tpd.type then
            .warned ("Cannot connect ports of different types: " ++ fpd.type ++ " and " ++ tpd.type)
          else if edges.any (fun e =>
              e.fromE.nodeId == f && e.fromE.port == fp &&
              e.toE.nodeId == t && e.toE.port == tp) then
            .warned "This connection already exists"
          else if edges.any (fun e => e.toE.nodeId == t && e.toE.port == tp) then
            .warned ("Input port \"" ++ tp ++ "\" is already connected")
          else
            .committed ⟨⟨f, fp, none⟩, ⟨t, tp, none⟩⟩

/-- The output/input PortDef lookups performed by handlePortPointerUp
(lines 143-149), packaged for statements. -/
def fromPortDefOf {V : Type} (nodes : List (NodeData V))
    (nodeTypes : String → Option NodeTypeDef) (f fp : String) : Option PortDef :=
  ((nodes.find? (fun n => n.id == f)).bind (fun n => nodeTypes n.type)).bind
    (fun td => td.outputs.find? (fun pd => pd.name == fp))

/-- Input-side counterpart of `fromPortDefOf`. -/
def toPortDefOf {V : Type} (nodes : List (NodeData V))
    (nodeTypes : String → Option NodeTypeDef) (t tp : String) : Option PortDef :=
  ((nodes.find? (fun n => n.id == t)).bind (fun n => nodeTypes n.type)).bind
    (fun td => td.inputs.find? (fun pd => pd.name == tp))

/-- Rubber-band preview line (useConnectionDrag's ConnectionPreview; TS
fields `start`/`end`, `end` being a Lean keyword). -/
structure ConnectionPreview where
  startPos : Point
  endPos : Point
deriving DecidableEq

/-- Gesture-state effect of `handlePortPointerUp`: the early return when
`newConnection` is null leaves both states untouched; every other path
ends with `setNewConnection(null); setConnectionPreview(null)`. -/
def handlePortPointerUpGesture (newConnection : Option NewConnection)
    (preview : Option ConnectionPreview) :
    Option NewConnection × Option ConnectionPreview :=
  match newConnection with
  | none => (none, preview)
  | some _ => (none, none)

/-- Platform-level `handlePointerUp` fallback (lines 203-206): always
clears both gesture states. -/
def handlePointerUpGesture (_newConnection : Option NewConnection)
    (_preview : Option ConnectionPreview) :
    Option NewConnection × Option ConnectionPreview :=
  (none, none)

/-- `handleCompleteConnection` from NodeSystem.tsx: appends the committed
connection and records the snapshot with a non-replace `set`. -/
def handleCompleteConnection {V : Type} (hist : HistoryState (AppState V))
    (connection : Connection) : HistoryState (AppState V) :=
  histSet 50 hist
    ⟨hist.present.nodes, hist.present.connections ++ [connection]⟩ false

/-- Effect of a pointer-up outcome on the coordinator state: only a commit
calls `onCompleteConnection`; warnings and aborts leave the graph alone. -/
def applyPointerUpOutcome {V : Type} (hist : HistoryState (AppState V))
    (o : PointerUpOutcome) : HistoryState (AppState V) :=
  match o with
  | .committed c => handleCompleteConnection hist c
  | _ => hist

/-- Selection argument of `handleNodeSelect` from NodeSystem.tsx:
`id : string | string[] | null`. -/
inductive SelectTarget
  | nullSel
  | oneSel (nid : String)
  | listSel (ids : List String)

/-- `handleNodeSelect` from NodeSystem.tsx.  All three shapes commit with
`replace: true`.  `isCtrlPressed` models `evt?.ctrlKey || evt?.metaKey`. -/
def handleNodeSelect {V : Type} (hist : HistoryState (AppState V))
    (target : SelectTarget) (isCtrlPressed : Bool) : HistoryState (AppState V) :=
  match target with
  | .nullSel =>
      histSet 50 hist
        ⟨hist.present.nodes.map (fun n => { n with selected := some false }),
         hist.present.connections⟩ true
  | .listSel ids =>
      histSet 50 hist
        ⟨hist.present.nodes.map (fun n => { n with selected := some (ids.contains n.id) }),
         hist.present.connections⟩ true
  | .oneSel nid =>
      histSet 50 hist
        ⟨(if isCtrlPressed then
            hist.present.nodes.map (fun n =>
              if n.id == nid then { n with selected := some (!(n.selected.getD false)) } else n)
          else
            hist.present.nodes.map (fun n => { n with selected := some (n.id == nid) })),
         hist.present.connections⟩ true

/-- `handleNodeDelete` from NodeSystem.tsx: filters the deleted ids out of
the nodes and drops every connection touching one of them, committed with
a non-replace `set`. -/
def handleNodeDelete {V : Type} (hist : HistoryState (AppState V))
    (ids : List String) : HistoryState (AppState V) :=
  histSet 50 hist
    ⟨hist.present.nodes.filter (fun n => !(ids.contains n.id)),
     hist.present.connections.filter (fun c =>
       !(ids.contains c.fromE.nodeId) && !(ids.contains c.toE.nodeId))⟩ false

/-- `handleSpliceNode` from NodeSystem.tsx: removes the chosen connection
(reference-inequality filter, modelled structurally), adds the two halves
through the dropped node, optionally snapping the node to the given
coordinates, and commits with a non-replace `set`. -/
def handleSpliceNode {V : Type} (hist : HistoryState (AppState V))
    (nodeId : String) (connectionToRemove : Connection)
    (inputPort outputPort : String) (newX newY : Option ℚ) :
    HistoryState (AppState V) :=
  let connectionIn : Connection := ⟨connectionToRemove.fromE, ⟨nodeId, inputPort, none⟩⟩
  let connectionOut : Connection := ⟨⟨nodeId, outputPort, none⟩, connectionToRemove.toE⟩
  let updatedNodes := match newX, newY with
    | some nx, some ny =>
        hist.present.nodes.map (fun n =>
          if n.id == nodeId then { n with x := nx, y := ny } else n)
    | _, _ => hist.present.nodes
  histSet 50 hist
    ⟨updatedNodes,
     hist.present.connections.filter (fun c => c != connectionToRemove) ++
       [connectionIn, connectionOut]⟩ false

/-- Arrow-key tag for the keyboard nudge handler. -/
inductive ArrowKey
  | up
  | down
  | left
  | right
deriving DecidableEq

/-- Arrow-key branch of `handleKeyDown` (useKeyboardShortcuts.ts lines
108-132) composed with the coordinator's `handleNodeMove`.  Both closures
capture the same render snapshot `nodes`; each `onNodeMove(id, x, y)` call
maps over that snapshot and commits it (`replace` is false outside a
drag), so sequential calls act on the closure's nodes, not on each other's
results. -/
def arrowNudge {V : Type} (hist : HistoryState (AppState V))
    (nodes : List (NodeData V)) (connections : List Connection)
    (key : ArrowKey) (shiftKey isCtrlOrCmd : Bool) : HistoryState (AppState V) :=
  let selectedNodes := nodes.filter (fun n => n.selected.getD false)
  if selectedNodes.length > 0 then
    if isCtrlOrCmd then hist
    else
      let step : ℚ := if shiftKey then 50 else 10
      let dx : ℚ := match key with
        | .left => -step
        | .right => step
        | _ => 0
      let dy : ℚ := match key with
        | .up => -step
        | .down => step
        | _ => 0
      selectedNodes.foldl (fun h node =>
        histSet 50 h
          ⟨nodes.map (fun n =>
              if n.id == node.id then { n with x := node.x + dx, y := node.y + dy } else n),
           connections⟩ false) hist
  else hist

/-- Pan/zoom state of usePanning.ts. -/
structure PanningState where
  offset : Point
  scale : ℚ
deriving DecidableEq

/-- `handleWheel` from usePanning.ts: Ctrl/Cmd+wheel zooms by
`-deltaY * 0.001` with the scale clamped into [0.2, 2] and shifts
`offset.x` by `-deltaY`; a plain wheel shifts `offset.y` by `-deltaY`. -/
def handleWheel (st : PanningState) (deltaY : ℚ) (isCtrlOrCmd : Bool) : PanningState :=
  if isCtrlOrCmd then
    { offset := ⟨st.offset.x - deltaY, st.offset.y⟩,
      scale := min (max 0.2 (st.scale + (-deltaY * 0.001))) 2 }
  else
    { st with offset := ⟨st.offset.x, st.offset.y - deltaY⟩ }

/-- Concrete three-node graph used by witnesses: nodes a, b, c. -/
def wDelNodes : List (NodeData Nat) :=
  [⟨"a", "t", 0, 0, none, none, none, none⟩,
   ⟨"b", "t", 1, 0, none, none, none, none⟩,
   ⟨"c", "t", 2, 0, none, none, none, none⟩]

/-- Witness connection a.out → c.in (survives deleting b). -/
def wConn0 : Connection := ⟨⟨"a", "out", none⟩, ⟨"c", "in", none⟩⟩

/-- Witness connection a.out → b.in (dropped when b is deleted). -/
def wConn1 : Connection := ⟨⟨"a", "out", none⟩, ⟨"b", "in", none⟩⟩

/-- Witness history state for the delete claim. -/
def wDelHist : HistoryState (AppState Nat) := ⟨[], ⟨wDelNodes, [wConn0, wConn1]⟩, []⟩

/-- Two selected nodes for the arrow-nudge failing input. -/
def bugNodeA : NodeData Nat := ⟨"a", "t", 0, 0, none, none, none, some true⟩

/-- Second selected node for the arrow-nudge failing input. -/
def bugNodeB : NodeData Nat := ⟨"b", "t", 10, 0, none, none, none, some true⟩

/-- History state holding the two selected nodes. -/
def bugHist : HistoryState (AppState Nat) := ⟨[], ⟨[bugNodeA, bugNodeB], []⟩, []⟩

/-- Witness node-type catalog: a "math" type with a number output `r` and
number input `a`, and a "bool" type with a boolean input `b`. -/
def wNodeTypes : String → Option NodeTypeDef := fun s =>
  if s = "math" then
    some ⟨"math", none, none, [⟨"a", "number"⟩], [⟨"r", "number"⟩], none, none⟩
  else if s = "boolsink" then
    some ⟨"boolsink", none, none, [⟨"b", "boolean"⟩], [], none, none⟩
  else none

/-- Witness nodes: n1 and n2 of type math, n3 a boolean sink. -/
def wNodes : List (NodeData Nat) :=
  [⟨"n1", "math", 0, 0, none, none, none, none⟩,
   ⟨"n2", "math", 0, 0, none, none, none, none⟩,
   ⟨"n3", "boolsink", 0, 0, none, none, none, none⟩]

/-- Witness in-progress drag from output port r of n1. -/
def wNC : NewConnection := ⟨some ⟨"n1", "r", none⟩, none⟩

lemma clamp_quad_le (L D t : ℚ) (hL : 0 < L) (ht : t = max 0 (min 1 (D / L))) :
    L * t ^ 2 - 2 * t * D ≤ 0 ∧ L * t ^ 2 - 2 * t * D ≤ L - 2 * D := by
  rcases le_total (D / L) 0 with h0 | h0
  · have ht0 : t = 0 := by
      rw [ht, min_eq_right (h0.trans zero_le_one), max_eq_left h0]
    have hD : D ≤ 0 := by
      have h1 : D / L * L ≤ 0 * L := mul_le_mul_of_nonneg_right h0 hL.le
      rwa [div_mul_cancel₀ _ (ne_of_gt hL), zero_mul] at h1
    subst ht0
    constructor <;> nlinarith
  · rcases le_total 1 (D / L) with h1 | h1
    · have ht1 : t = 1 := by
        rw [ht, min_eq_left h1]
        exact max_eq_right zero_le_one
      have hD : L ≤ D := by
        have h2 : 1 * L ≤ D / L * L := mul_le_mul_of_nonneg_right h1 hL.le
        rwa [one_mul, div_mul_cancel₀ _ (ne_of_gt hL)] at h2
      subst ht1
      constructor <;> nlinarith
    · have htm : t = D / L := by
        rw [ht, min_eq_right h1, max_eq_right h0]
      subst htm
      have e1 : L * (D / L) ^ 2 - 2 * (D / L) * D = -(D ^ 2 / L) := by
        field_simp
        ring
      have e2 : L - 2 * D - (L * (D / L) ^ 2 - 2 * (D / L) * D) = (L - D) ^ 2 / L := by
        field_simp
        ring
      constructor
      · rw [e1]
        have : 0 ≤ D ^ 2 / L := div_nonneg (sq_nonneg D) hL.le
        linarith
      · nlinarith [div_nonneg (sq_nonneg (L - D)) hL.le]

lemma seg_quad_bound (w1 w2 u1 u2 t : ℚ)
    (hL : 0 < u1 ^ 2 + u2 ^ 2)
    (ht : t = max 0 (min 1 ((w1 * u1 + w2 * u2) / (u1 ^ 2 + u2 ^ 2)))) :
    (w1 - t * u1) ^ 2 + (w2 - t * u2) ^ 2 ≤ w1 ^ 2 + w2 ^ 2 ∧
    (w1 - t * u1) ^ 2 + (w2 - t * u2) ^ 2 ≤ (w1 - u1) ^ 2 + (w2 - u2) ^ 2 := by
  obtain ⟨k1, k2⟩ := clamp_quad_le (u1 ^ 2 + u2 ^ 2) (w1 * u1 + w2 * u2) t hL ht
  constructor <;> nlinarith [k1, k2]

lemma sum_sq_eq_zero {x y : ℚ} (h : x ^ 2 + y ^ 2 = 0) : x = 0 ∧ y = 0 := by
  constructor <;> nlinarith [sq_nonneg x, sq_nonneg y]

lemma distancePointToSegmentSq_le_distSq (p a b : Point) :
    distancePointToSegmentSq p a b ≤ distSq p a ∧
    distancePointToSegmentSq p a b ≤ distSq p b := by
  simp only [distancePointToSegmentSq, distSq]
  by_cases hl : (b.x - a.x) ^ 2 + (b.y - a.y) ^ 2 = 0
  · obtain ⟨hx, hy⟩ := sum_sq_eq_zero hl
    rw [if_pos hl]
    constructor
    · exact le_refl _
    · have hbx : b.x = a.x := by linarith
      have hby : b.y = a.y := by linarith
      rw [hbx, hby]
  · rw [if_neg hl]
    have hl' : 0 < (b.x - a.x) ^ 2 + (b.y - a.y) ^ 2 :=
      lt_of_le_of_ne (by positivity) (Ne.symm hl)
    set t := max 0 (min 1 (((p.x - a.x) * (b.x - a.x) + (p.y - a.y) * (b.y - a.y)) /
      ((b.x - a.x) ^ 2 + (b.y - a.y) ^ 2))) with htdef
    obtain ⟨k1, k2⟩ :=
      seg_quad_bound (p.x - a.x) (p.y - a.y) (b.x - a.x) (b.y - a.y) t hl' htdef
    have e : (p.x - (a.x + t * (b.x - a.x))) ^ 2 + (p.y - (a.y + t * (b.y - a.y))) ^ 2 =
        (p.x - a.x - t * (b.x - a.x)) ^ 2 + (p.y - a.y - t * (b.y - a.y)) ^ 2 := by
      ring
    constructor
    · rw [e]
      exact k1
    · rw [e]
      refine k2.trans (le_of_eq ?_)
      ring

lemma distancePointToSegmentSq_eq_zero_of_mem (p a b : Point)
    (h : ∃ t : ℚ, 0 ≤ t ∧ t ≤ 1 ∧ p.x = a.x + t * (b.x - a.x) ∧ p.y = a.y + t * (b.y - a.y)) :
    distancePointToSegmentSq p a b = 0 := by
  obtain ⟨t, ht0, ht1, hx, hy⟩ := h
  simp only [distancePointToSegmentSq]
  by_cases hl : (b.x - a.x) ^ 2 + (b.y - a.y) ^ 2 = 0
  · obtain ⟨hu, hv⟩ := sum_sq_eq_zero hl
    rw [if_pos hl, hx, hy, hu, hv]
    ring
  · rw [if_neg hl]
    have hl' : 0 < (b.x - a.x) ^ 2 + (b.y - a.y) ^ 2 :=
      lt_of_le_of_ne (by positivity) (Ne.symm hl)
    have hD : (p.x - a.x) * (b.x - a.x) + (p.y - a.y) * (b.y - a.y) =
        t * ((b.x - a.x) ^ 2 + (b.y - a.y) ^ 2) := by
      rw [hx, hy]; ring
    have htdiv : ((p.x - a.x) * (b.x - a.x) + (p.y - a.y) * (b.y - a.y)) /
        ((b.x - a.x) ^ 2 + (b.y - a.y) ^ 2) = t := by
      rw [hD]
      field_simp
    rw [htdiv, min_eq_right ht1, max_eq_right ht0, hx, hy]
    ring

lemma distancePointToSegmentSq_degenerate (p a : Point) :
    distancePointToSegmentSq p a a = distSq p a := by
  simp [distancePointToSegmentSq, distSq]

/-- C7: distancePointToSegment(p,a,b) is 0 when p lies on the segment [a,b];
equals distance(p,a) when a = b; and, because the projection parameter is
clamped to [0,1], never exceeds the distance from p to the nearer segment
endpoint. -/
theorem C7_distancePointToSegment (p a b : Point) :
    ((∃ t : ℚ, 0 ≤ t ∧ t ≤ 1 ∧ p.x = a.x + t * (b.x - a.x) ∧ p.y = a.y + t * (b.y - a.y)) →
        Real.sqrt ((distancePointToSegmentSq p a b : ℚ) : ℝ) = 0) ∧
    (a = b → Real.sqrt ((distancePointToSegmentSq p a b : ℚ) : ℝ) =
        Real.sqrt ((distSq p a : ℚ) : ℝ)) ∧
    Real.sqrt ((distancePointToSegmentSq p a b : ℚ) : ℝ) ≤
      min (Real.sqrt ((distSq p a : ℚ) : ℝ)) (Real.sqrt ((distSq p b : ℚ) : ℝ)) := by
  refine ⟨fun h => ?_, fun h => ?_, ?_⟩
  · rw [distancePointToSegmentSq_eq_zero_of_mem p a b h]
    simp
  · subst h
    rw [distancePointToSegmentSq_degenerate]
  · obtain ⟨h1, h2⟩ := distancePointToSegmentSq_le_distSq p a b
    refine le_min (Real.sqrt_le_sqrt ?_) (Real.sqrt_le_sqrt ?_)
    · exact_mod_cast h1
    · exact_mod_cast h2

/-- C7 witness: the theorem applied at concrete points — p = (1,0) lies on
the segment from (0,0) to (2,0) with t = 1/2, and the degenerate case at
a = b = (1,1). -/
theorem C7_witness :
    Real.sqrt ((distancePointToSegmentSq ⟨1, 0⟩ ⟨0, 0⟩ ⟨2, 0⟩ : ℚ) : ℝ) = 0 ∧
    Real.sqrt ((distancePointToSegmentSq ⟨3, 4⟩ ⟨1, 1⟩ ⟨1, 1⟩ : ℚ) : ℝ) =
      Real.sqrt ((distSq ⟨3, 4⟩ ⟨1, 1⟩ : ℚ) : ℝ) :=
  ⟨(C7_distancePointToSegment ⟨1, 0⟩ ⟨0, 0⟩ ⟨2, 0⟩).1
      ⟨1/2, by norm_num, by norm_num, by norm_num, by norm_num⟩,
   (C7_distancePointToSegment ⟨3, 4⟩ ⟨1, 1⟩ ⟨1, 1⟩).2.1 rfl⟩

/-- Helper: dropLast distributes over a double cons (definitional). -/
lemma dropLast_cons_cons {α : Type} (a b : α) (l : List α) :
    (a :: b :: l).dropLast = a :: (b :: l).dropLast := rfl

/-- C4: with a non-empty past, undo followed by redo restores the exact
pre-undo state; undo is a no-op on an empty past, redo is a no-op on an
empty future, and any non-replace set clears the future. -/
theorem C4_undo_redo {T : Type} (s : HistoryState T) :
    (s.past ≠ [] → histRedo (histUndo s) = s) ∧
    (s.past = [] → histUndo s = s) ∧
    (s.future = [] → histRedo s = s) ∧
    (∀ v : T, (histSet 50 s v false).future = []) := by
  obtain ⟨ps, p, f⟩ := s
  refine ⟨?_, ?_, ?_, fun v => rfl⟩
  · intro h
    rcases List.eq_nil_or_concat ps with rfl | ⟨qs, q, rfl⟩
    · exact absurd rfl h
    · simp [histUndo, histRedo, List.getLast?_concat, List.dropLast_concat]
  · intro h
    simp only at h
    subst h
    rfl
  · intro h
    simp only at h
    subst h
    rfl

/-- C4 witness: the round trip at a concrete state with non-empty past,
and the no-op undo at an empty past. -/
theorem C4_witness :
    histRedo (histUndo (⟨[1], 2, [3]⟩ : HistoryState Nat)) = ⟨[1], 2, [3]⟩ ∧
    histUndo (⟨[], 5, [6]⟩ : HistoryState Nat) = ⟨[], 5, [6]⟩ :=
  ⟨(C4_undo_redo ⟨[1], 2, [3]⟩).1 (by decide),
   (C4_undo_redo (⟨[], 5, [6]⟩ : HistoryState Nat)).2.1 rfl⟩

/-- C10: every selection mutation (deselect-all, list selection, single
click with or without ctrl) commits with replace = true, so the history's
past and future are unchanged. -/
theorem C10_selection_preserves_history {V : Type} (hist : HistoryState (AppState V))
    (target : SelectTarget) (isCtrlPressed : Bool) :
    (handleNodeSelect hist target isCtrlPressed).past = hist.past ∧
    (handleNodeSelect hist target isCtrlPressed).future = hist.future := by
  cases target <;> exact ⟨rfl, rfl⟩

lemma handleWheel_scale_mem (st : PanningState) (d : ℚ) (c : Bool)
    (h : 0.2 ≤ st.scale ∧ st.scale ≤ 2) :
    0.2 ≤ (handleWheel st d c).scale ∧ (handleWheel st d c).scale ≤ 2 := by
  cases c
  · exact h
  · refine ⟨?_, ?_⟩
    · show (0.2 : ℚ) ≤ min (max 0.2 (st.scale + (-d * 0.001))) 2
      exact le_min (le_max_left _ _) (by norm_num)
    · show min (max 0.2 (st.scale + (-d * 0.001))) 2 ≤ 2
      exact min_le_right _ _

lemma wheel_fold_scale_mem (events : List (ℚ × Bool)) : ∀ (st : PanningState),
    0.2 ≤ st.scale ∧ st.scale ≤ 2 →
    0.2 ≤ (events.foldl (fun s ev => handleWheel s ev.1 ev.2) st).scale ∧
    (events.foldl (fun s ev => handleWheel s ev.1 ev.2) st).scale ≤ 2 := by
  induction events with
  | nil => exact fun st h => h
  | cons ev evs ih =>
    intro st h
    rw [List.foldl_cons]
    exact ih _ (handleWheel_scale_mem st ev.1 ev.2 h)

/-- C9: Ctrl/Cmd+wheel sets the scale to the previous scale plus
-deltaY*0.001 clamped into [0.2, 2] and shifts offset.x by -deltaY; a
plain wheel only shifts offset.y by -deltaY; hence starting inside
[0.2, 2] the scale stays inside [0.2, 2] under any event sequence. -/
theorem C9_wheel_zoom (st : PanningState) (deltaY : ℚ) (events : List (ℚ × Bool))
    (h : 0.2 ≤ st.scale ∧ st.scale ≤ 2) :
    ((handleWheel st deltaY true).scale = min (max 0.2 (st.scale + (-deltaY * 0.001))) 2 ∧
     (handleWheel st deltaY true).offset = ⟨st.offset.x - deltaY, st.offset.y⟩) ∧
    ((handleWheel st deltaY false).offset = ⟨st.offset.x, st.offset.y - deltaY⟩ ∧
     (handleWheel st deltaY false).scale = st.scale) ∧
    (0.2 ≤ (events.foldl (fun s ev => handleWheel s ev.1 ev.2) st).scale ∧
     (events.foldl (fun s ev => handleWheel s ev.1 ev.2) st).scale ≤ 2) :=
  ⟨⟨rfl, rfl⟩, ⟨rfl, rfl⟩, wheel_fold_scale_mem events st h⟩

/-- C9 witness: the clamping invariant at a concrete start state and a
concrete zoom-then-pan event sequence. -/
theorem C9_witness :
    0.2 ≤ ([((100 : ℚ), true), ((3 : ℚ), false)].foldl
        (fun s ev => handleWheel s ev.1 ev.2) ⟨⟨0, 0⟩, 1⟩).scale ∧
    ([((100 : ℚ), true), ((3 : ℚ), false)].foldl
        (fun s ev => handleWheel s ev.1 ev.2) ⟨⟨0, 0⟩, 1⟩).scale ≤ 2 :=
  (C9_wheel_zoom ⟨⟨0, 0⟩, 1⟩ 5 [(100, true), (3, false)]
    ⟨by norm_num, by norm_num⟩).2.2

/-- C8: deleting a set of node ids removes every connection touching a
deleted id, keeps every connection between survivors, and preserves
invariant I2 (no dangling node references) when it held before. -/
theorem C8_delete_preserves_invariant {V : Type} (hist : HistoryState (AppState V))
    (ids : List String)
    (hI2 : ∀ c ∈ hist.present.connections,
        (∃ n ∈ hist.present.nodes, n.id = c.fromE.nodeId) ∧
        (∃ n ∈ hist.present.nodes, n.id = c.toE.nodeId)) :
    (∀ c ∈ (handleNodeDelete hist ids).present.connections,
        c.fromE.nodeId ∉ ids ∧ c.toE.nodeId ∉ ids) ∧
    (∀ c ∈ (handleNodeDelete hist ids).present.connections,
        (∃ n ∈ (handleNodeDelete hist ids).present.nodes, n.id = c.fromE.nodeId) ∧
        (∃ n ∈ (handleNodeDelete hist ids).present.nodes, n.id = c.toE.nodeId)) ∧
    (∀ c ∈ hist.present.connections, c.fromE.nodeId ∉ ids → c.toE.nodeId ∉ ids →
        c ∈ (handleNodeDelete hist ids).present.connections) ∧
    (∀ c ∈ (handleNodeDelete hist ids).present.connections,
        c ∈ hist.present.connections) := by
  have hmem : ∀ c : Connection, c ∈ (handleNodeDelete hist ids).present.connections ↔
      c ∈ hist.present.connections ∧ c.fromE.nodeId ∉ ids ∧ c.toE.nodeId ∉ ids := by
    intro c
    show c ∈ hist.present.connections.filter _ ↔ _
    simp [List.mem_filter]
  have hmemn : ∀ n : NodeData V, n ∈ (handleNodeDelete hist ids).present.nodes ↔
      n ∈ hist.present.nodes ∧ n.id ∉ ids := by
    intro n
    show n ∈ hist.present.nodes.filter _ ↔ _
    simp [List.mem_filter]
  refine ⟨?_, ?_, ?_, ?_⟩
  · intro c hc
    exact ((hmem c).mp hc).2
  · intro c hc
    obtain ⟨hcmem, hcf, hct⟩ := (hmem c).mp hc
    obtain ⟨⟨n1, hn1, hid1⟩, ⟨n2, hn2, hid2⟩⟩ := hI2 c hcmem
    exact ⟨⟨n1, (hmemn n1).mpr ⟨hn1, by rw [hid1]; exact hcf⟩, hid1⟩,
           ⟨n2, (hmemn n2).mpr ⟨hn2, by rw [hid2]; exact hct⟩, hid2⟩⟩
  · intro c hc hf ht
    exact (hmem c).mpr ⟨hc, hf, ht⟩
  · intro c hc
    exact ((hmem c).mp hc).1

/-- C8 witness: the theorem applied to the concrete graph a,b,c with
connections a→c and a→b, deleting b; the surviving connection a→c is kept. -/
theorem C8_witness :
    wConn0 ∈ (handleNodeDelete wDelHist ["b"]).present.connections := by
  have h := C8_delete_preserves_invariant wDelHist ["b"] (by decide)
  exact h.2.2.1 wConn0 (by decide) (by decide) (by decide)

/-- C5: a splice commit removes the chosen connection X→Y (which does not
touch the dropped node), adds exactly the two halves X→(node, bestInput)
and (node, bestOutput)→Y preserving the external endpoints, and leaves
every other connection unchanged. -/
theorem C5_splice_rewires {V : Type} (hist : HistoryState (AppState V)) (nodeId : String)
    (conn : Connection) (inputPort outputPort : String) (newX newY : Option ℚ)
    (h1 : conn.fromE.nodeId ≠ nodeId) (h2 : conn.toE.nodeId ≠ nodeId) :
    conn ∉ (handleSpliceNode hist nodeId conn inputPort outputPort newX newY).present.connections ∧
    (⟨conn.fromE, ⟨nodeId, inputPort, none⟩⟩ : Connection) ∈
      (handleSpliceNode hist nodeId conn inputPort outputPort newX newY).present.connections ∧
    (⟨⟨nodeId, outputPort, none⟩, conn.toE⟩ : Connection) ∈
      (handleSpliceNode hist nodeId conn inputPort outputPort newX newY).present.connections ∧
    (∀ c ∈ hist.present.connections, c ≠ conn →
      c ∈ (handleSpliceNode hist nodeId conn inputPort outputPort newX newY).present.connections) ∧
    (∀ c ∈ (handleSpliceNode hist nodeId conn inputPort outputPort newX newY).present.connections,
      c = ⟨conn.fromE, ⟨nodeId, inputPort, none⟩⟩ ∨
      c = ⟨⟨nodeId, outputPort, none⟩, conn.toE⟩ ∨
      (c ∈ hist.present.connections ∧ c ≠ conn)) := by
  have hpres : (handleSpliceNode hist nodeId conn inputPort outputPort newX newY).present.connections
      = hist.present.connections.filter (fun c => c != conn) ++
        [⟨conn.fromE, ⟨nodeId, inputPort, none⟩⟩, ⟨⟨nodeId, outputPort, none⟩, conn.toE⟩] := rfl
  refine ⟨?_, ?_, ?_, ?_, ?_⟩
  · intro hmemc
    rw [hpres] at hmemc
    rcases List.mem_append.mp hmemc with hm | hm
    · have hb := (List.mem_filter.mp hm).2
      simp at hb
    · simp only [List.mem_cons, List.not_mem_nil, or_false] at hm
      rcases hm with heq | heq
      · exact h2 (congrArg (fun c => c.toE.nodeId) heq)
      · exact h1 (congrArg (fun c => c.fromE.nodeId) heq)
  · rw [hpres]
    exact List.mem_append_right _ (by simp)
  · rw [hpres]
    exact List.mem_append_right _ (by simp)
  · intro c hc hne
    rw [hpres]
    exact List.mem_append_left _ (List.mem_filter.mpr ⟨hc, by simpa using hne⟩)
  · intro c hc
    rw [hpres] at hc
    rcases List.mem_append.mp hc with hm | hm
    · obtain ⟨hcm, hb⟩ := List.mem_filter.mp hm
      right; right
      exact ⟨hcm, by simpa using hb⟩
    · simp only [List.mem_cons, List.not_mem_nil, or_false] at hm
      rcases hm with heq | heq
      · exact Or.inl heq
      · exact Or.inr (Or.inl heq)

/-- C5 witness: the theorem applied at a concrete splice — connection
a→c spliced through node b with best ports in/out. -/
theorem C5_witness :
    wConn0 ∉ (handleSpliceNode wDelHist "b" wConn0 "in" "out" none none).present.connections ∧
    (⟨wConn0.fromE, ⟨"b", "in", none⟩⟩ : Connection) ∈
      (handleSpliceNode wDelHist "b" wConn0 "in" "out" none none).present.connections := by
  have h := C5_splice_rewires wDelHist "b" wConn0 "in" "out" none none
    (by decide) (by decide)
  exact ⟨h.1, h.2.1⟩

/-- C6 (code bug): arrow-right with the two selected nodes a (x = 0) and
b (x = 10): the committed snapshot moves only the last selected node
(a stays at 0, b moves to 20), because each handleNodeMove call maps over
the stale render snapshot; the claim requires [10, 20]. -/
theorem C6_arrow_nudge_stale_closure :
    ((arrowNudge bugHist [bugNodeA, bugNodeB] [] .right false false).present.nodes.map
        (fun n => n.x) = [0, 20]) ∧
    ¬ ((arrowNudge bugHist [bugNodeA, bugNodeB] [] .right false false).present.nodes.map
        (fun n => n.x) = [10, 20]) := by
  have e : (10 : ℚ) + 10 = 20 := by norm_num
  have step1 : (arrowNudge bugHist [bugNodeA, bugNodeB] [] .right false false).present.nodes.map
      (fun n => n.x) = [0, (10 : ℚ) + 10] := rfl
  constructor
  · rw [step1, e]
  · rw [step1, e]
    intro hbad
    have : (0 : ℚ) = 10 := by
      injection hbad
    norm_num at this

lemma foldl_histSet_false {T : Type} (vs : List T) : ∀ (s : HistoryState T),
    s.past.length + vs.length ≤ 50 →
    (vs.foldl (fun st v => histSet 50 st v false) s).past
        = s.past ++ (s.present :: vs).dropLast ∧
    (vs.foldl (fun st v => histSet 50 st v false) s).present = vs.getLastD s.present := by
  induction vs with
  | nil =>
    intro s _
    exact ⟨by simp, rfl⟩
  | cons v vs ih =>
    intro s hlen
    simp only [List.length_cons] at hlen
    have hnoev : ¬ (s.past ++ [s.present]).length > 50 := by
      simp only [List.length_append, List.length_cons, List.length_nil]
      omega
    have hstep : histSet 50 s v false = ⟨s.past ++ [s.present], v, []⟩ := by
      have h0 : histSet 50 s v false
          = ⟨if (s.past ++ [s.present]).length > 50 then (s.past ++ [s.present]).tail
             else s.past ++ [s.present], v, []⟩ := rfl
      rw [h0, if_neg hnoev]
    rw [List.foldl_cons, hstep]
    obtain ⟨hp, hpr⟩ := ih ⟨s.past ++ [s.present], v, []⟩ (by
      simp only [List.length_append, List.length_cons, List.length_nil]
      omega)
    refine ⟨?_, ?_⟩
    · rw [hp]
      simp [dropLast_cons_cons, List.append_assoc]
    · rw [hpr]
      rw [List.getLastD_cons]

lemma foldl_histSet_true {T : Type} (rs : List T) : ∀ (s : HistoryState T),
    rs.foldl (fun st r => histSet 50 st r true) s
      = { s with present := rs.getLastD s.present } := by
  induction rs with
  | nil => intro s; rfl
  | cons r rs ih =>
    intro s
    rw [List.foldl_cons, show histSet 50 s r true = { s with present := r } from rfl, ih]
    rw [List.getLastD_cons]

lemma histSet_false_at_cap {T : Type} (s : HistoryState T) (v : T)
    (h : s.past.length = 50) :
    (histSet 50 s v false).past = (s.past ++ [s.present]).tail := by
  have hgt : (s.past ++ [s.present]).length > 50 := by
    simp only [List.length_append, List.length_cons, List.length_nil]
    omega
  have h0 : histSet 50 s v false
      = ⟨if (s.past ++ [s.present]).length > 50 then (s.past ++ [s.present]).tail
         else s.past ++ [s.present], v, []⟩ := rfl
  rw [h0, if_pos hgt]

/-- C3 counterexample: starting from present 0, one replace commit of 1
followed by a non-replace commit of 2 pushes [1] onto past — the value at
commit time, not the pre-replace present 0 that the claim names. -/
theorem C3_counterexample :
    (histSet 50 (histSet 50 (⟨[], 0, []⟩ : HistoryState Nat) 1 true) 2 false).past = [1] ∧
    (histSet 50 (histSet 50 (⟨[], 0, []⟩ : HistoryState Nat) 1 true) 2 false).past ≠ [0] := by
  exact ⟨rfl, by decide⟩

/-- C3 (amended): after 51 sequential non-replace commits from an empty
past, the past is exactly the first 50 committed values (length 50, the
initial present evicted); and a sequence of replace commits followed by
one non-replace commit (with the past below the 50 cap) appends exactly
one entry — the present at commit time, i.e. the last replaced value, or
the pre-sequence present when no replace happened. -/
theorem C3_history_bounds (T : Type) :
    (∀ (p0 : T) (f0 : List T) (vs : List T), vs.length = 51 →
      (vs.foldl (fun st v => histSet 50 st v false) ⟨[], p0, f0⟩).past = vs.dropLast ∧
      (vs.foldl (fun st v => histSet 50 st v false) ⟨[], p0, f0⟩).past.length = 50) ∧
    (∀ (s : HistoryState T) (rs : List T) (v : T), s.past.length < 50 →
      (histSet 50 (rs.foldl (fun st r => histSet 50 st r true) s) v false).past
        = s.past ++ [rs.getLastD s.present]) := by
  constructor
  · intro p0 f0 vs hvs
    have hne : vs ≠ [] := by
      intro h
      rw [h] at hvs
      simp at hvs
    obtain ⟨ws, vl, rfl⟩ := (List.eq_nil_or_concat vs).resolve_left hne
    simp only [List.concat_eq_append] at hvs ⊢
    have hws : ws.length = 50 := by
      simp only [List.length_append, List.length_cons, List.length_nil] at hvs
      omega
    have hwsne : ws ≠ [] := by
      intro h
      rw [h] at hws
      simp at hws
    obtain ⟨hp, hpr⟩ := foldl_histSet_false ws ⟨[], p0, f0⟩ (by simp [hws])
    have hdl : (p0 :: ws).dropLast = p0 :: ws.dropLast := by
      obtain ⟨w, ws', rfl⟩ := List.exists_cons_of_ne_nil hwsne
      exact dropLast_cons_cons p0 w ws'
    have hplen : (ws.foldl (fun st v => histSet 50 st v false)
        (⟨[], p0, f0⟩ : HistoryState T)).past.length = 50 := by
      rw [hp, hdl]
      simp [List.length_dropLast, hws]
    rw [List.foldl_append, List.foldl_cons, List.foldl_nil]
    have hcap := histSet_false_at_cap
      (ws.foldl (fun st v => histSet 50 st v false) ⟨[], p0, f0⟩) vl hplen
    have hgld : ws.getLastD p0 = ws.getLast hwsne := by
      rw [List.getLastD_eq_getLast?, List.getLast?_eq_getLast ws hwsne]
      rfl
    have hpast : (histSet 50 (ws.foldl (fun st v => histSet 50 st v false)
        (⟨[], p0, f0⟩ : HistoryState T)) vl false).past = ws := by
      rw [hcap, hp, hdl, hpr, hgld]
      simp only [List.nil_append, List.cons_append, List.tail_cons]
      exact List.dropLast_append_getLast hwsne
    rw [List.dropLast_concat]
    exact ⟨hpast, by rw [hpast, hws]⟩
  · intro s rs v hlt
    rw [foldl_histSet_true]
    have hnoev : ¬ (s.past ++ [rs.getLastD s.present]).length > 50 := by
      simp only [List.length_append, List.length_cons, List.length_nil]
      omega
    have h0 : histSet 50 { s with present := rs.getLastD s.present } v false
        = ⟨if (s.past ++ [rs.getLastD s.present]).length > 50 then
             (s.past ++ [rs.getLastD s.present]).tail
           else s.past ++ [rs.getLastD s.present], v, []⟩ := rfl
    rw [h0, if_neg hnoev]

/-- C3 witness: the amended theorem applied at 51 concrete commits of the
value 7 from an empty past, and at a concrete replace-then-commit
sequence. -/
theorem C3_witness :
    ((List.replicate 51 (7 : Nat)).foldl (fun st v => histSet 50 st v false)
        ⟨[], 0, []⟩).past = (List.replicate 51 (7 : Nat)).dropLast ∧
    (histSet 50 ([1, 2].foldl (fun st r => histSet 50 st r true)
        (⟨[], 0, []⟩ : HistoryState Nat)) 9 false).past = [] ++ [[1, 2].getLastD 0] := by
  have h := C3_history_bounds Nat
  exact ⟨(h.1 0 [] (List.replicate 51 7) (by simp)).1,
         h.2 ⟨[], 0, []⟩ [1, 2] 9 (by simp)⟩

lemma validateConnection_eq {V : Type} (nodes : List (NodeData V))
    (nodeTypes : String → Option NodeTypeDef) (edges : List Connection)
    (f fp t tp : String) :
    (validateConnection nodes nodeTypes edges f fp t tp
        = .committed ⟨⟨f, fp, none⟩, ⟨t, tp, none⟩⟩
      ↔ f ≠ t ∧
        (∃ fpd tpd : PortDef, fromPortDefOf nodes nodeTypes f fp = some fpd ∧
            toPortDefOf nodes nodeTypes t tp = some tpd ∧ fpd.type = tpd.type) ∧
        (∀ e ∈ edges, ¬(e.fromE.nodeId = f ∧ e.fromE.port = fp ∧
            e.toE.nodeId = t ∧ e.toE.port = tp)) ∧
        (∀ e ∈ edges, ¬(e.toE.nodeId = t ∧ e.toE.port = tp))) ∧
    (∀ c, validateConnection nodes nodeTypes edges f fp t tp = .committed c →
        c = ⟨⟨f, fp, none⟩, ⟨t, tp, none⟩⟩) := by
  simp only [validateConnection, fromPortDefOf, toPortDefOf]
  by_cases hself : f = t
  · subst hself
    simp
  · rw [if_neg hself]
    cases hfty : (nodes.find? fun n => n.id == f).bind (fun n => nodeTypes n.type) with
    | none => simp
    | some ftd =>
      simp only [Option.some_bind]
      cases htty : (nodes.find? fun n => n.id == t).bind (fun n => nodeTypes n.type) with
      | none => simp
      | some ttd =>
        simp only [Option.some_bind]
        cases hfpd : ftd.outputs.find? (fun pd => pd.name == fp) with
        | none => simp
        | some fpd =>
          cases htpd : ttd.inputs.find? (fun pd => pd.name == tp) with
          | none => simp
          | some tpd =>
            simp only []
            by_cases hty : fpd.type = tpd.type
            · rw [if_neg (not_not_intro hty)]
              by_cases hdup : (edges.any fun e => e.fromE.nodeId == f && e.fromE.port == fp &&
                  e.toE.nodeId == t && e.toE.port == tp) = true
              · rw [if_pos hdup]
                rw [List.any_eq_true] at hdup
                obtain ⟨e0, he0, hbe⟩ := hdup
                simp only [Bool.and_eq_true, beq_iff_eq] at hbe
                constructor
                · constructor
                  · intro h
                    exact absurd h (by simp)
                  · rintro ⟨-, -, hnodup, -⟩
                    exact absurd ⟨hbe.1.1.1, hbe.1.1.2, hbe.1.2, hbe.2⟩ (hnodup e0 he0)
                · intro c h
                  exact absurd h (by simp)
              · rw [if_neg hdup]
                by_cases hinp : (edges.any fun e => e.toE.nodeId == t && e.toE.port == tp) = true
                · rw [if_pos hinp]
                  rw [List.any_eq_true] at hinp
                  obtain ⟨e0, he0, hbe⟩ := hinp
                  simp only [Bool.and_eq_true, beq_iff_eq] at hbe
                  constructor
                  · constructor
                    · intro h
                      exact absurd h (by simp)
                    · rintro ⟨-, -, -, hninp⟩
                      exact absurd ⟨hbe.1, hbe.2⟩ (hninp e0 he0)
                  · intro c h
                    exact absurd h (by simp)
                · rw [if_neg hinp]
                  constructor
                  · constructor
                    · intro _
                      refine ⟨hself, ⟨fpd, tpd, rfl, rfl, hty⟩, ?_, ?_⟩
                      · intro e he hand
                        apply hdup
                        rw [List.any_eq_true]
                        refine ⟨e, he, ?_⟩
                        simp only [Bool.and_eq_true, beq_iff_eq]
                        tauto
                      · intro e he hand
                        apply hinp
                        rw [List.any_eq_true]
                        refine ⟨e, he, ?_⟩
                        simp only [Bool.and_eq_true, beq_iff_eq]
                        tauto
                    · intro _
                      rfl
                  · intro c h
                    injection h with h'
                    exact h'.symm
            · rw [if_pos hty]
              constructor
              · constructor
                · intro h
                  exact absurd h (by simp)
                · rintro ⟨-, ⟨fpd', tpd', hf', ht', hty'⟩, -, -⟩
                  injection hf' with hf'
                  injection ht' with ht'
                  rw [← hf', ← ht'] at hty'
                  exact (hty hty').elim
              · intro c h
                exact absurd h (by simp)

/-- C1: given resolved endpoints, a connection is committed iff the looked
up output/input PortDefs exist with equal types, the node ids differ, no
existing edge matches all four fields, and the destination input is not
already connected; the committed connection is exactly
{from:{nodeId,port}, to:{nodeId,port}}, and the coordinator appends it. -/
theorem C1_connection_commit {V : Type} (nodes : List (NodeData V))
    (nodeTypes : String → Option NodeTypeDef) (edges : List Connection)
    (nc : NewConnection) (nodeId : String) (port : PortDef) (direction : PortDirection)
    (f fp t tp : String) (hist : HistoryState (AppState V))
    (hres : resolveEndpoints nc nodeId port.name direction = some (f, fp, t, tp)) :
    (handlePortPointerUp nodes nodeTypes edges (some nc) nodeId port direction
        = .committed ⟨⟨f, fp, none⟩, ⟨t, tp, none⟩⟩
      ↔ f ≠ t ∧
        (∃ fpd tpd : PortDef, fromPortDefOf nodes nodeTypes f fp = some fpd ∧
            toPortDefOf nodes nodeTypes t tp = some tpd ∧ fpd.type = tpd.type) ∧
        (∀ e ∈ edges, ¬(e.fromE.nodeId = f ∧ e.fromE.port = fp ∧
            e.toE.nodeId = t ∧ e.toE.port = tp)) ∧
        (∀ e ∈ edges, ¬(e.toE.nodeId = t ∧ e.toE.port = tp))) ∧
    (∀ c, handlePortPointerUp nodes nodeTypes edges (some nc) nodeId port direction
        = .committed c → c = ⟨⟨f, fp, none⟩, ⟨t, tp, none⟩⟩) ∧
    (∀ c, (handleCompleteConnection hist c).present.connections
        = hist.present.connections ++ [c]) := by
  have hh : handlePortPointerUp nodes nodeTypes edges (some nc) nodeId port direction
      = validateConnection nodes nodeTypes edges f fp t tp := by
    simp only [handlePortPointerUp, hres]
  rw [hh]
  exact ⟨(validateConnection_eq nodes nodeTypes edges f fp t tp).1,
         (validateConnection_eq nodes nodeTypes edges f fp t tp).2,
         fun c => rfl⟩

/-- C1 witness: the theorem applied to the concrete graph — dragging from
output r (number) of n1 and dropping on input a (number) of n2 with no
existing edges commits exactly {from:{n1,r}, to:{n2,a}}. -/
theorem C1_witness :
    handlePortPointerUp wNodes wNodeTypes ([] : List Connection) (some wNC) "n2"
        ⟨"a", "number"⟩ .input
      = .committed ⟨⟨"n1", "r", none⟩, ⟨"n2", "a", none⟩⟩ := by
  have h := C1_connection_commit wNodes wNodeTypes [] wNC "n2" ⟨"a", "number"⟩ .input
    "n1" "r" "n2" "a" ⟨[], ⟨[], []⟩, []⟩ (by decide)
  exact h.1.mpr ⟨by decide, ⟨⟨"r", "number"⟩, ⟨"a", "number"⟩, by decide, by decide, rfl⟩,
    by simp, by simp⟩

/-- C2: for an active drag whose endpoint ids and port names are non-empty
strings, the source's pointer-up outcome coincides with the spec §4.4
check order and messages; the gesture state is cleared on every port
pointer-up with an active drag and by the platform fallback; and any
non-commit outcome leaves the coordinator state unchanged. -/
theorem C2_validation_order {V : Type} (nodes : List (NodeData V))
    (nodeTypes : String → Option NodeTypeDef) (edges : List Connection)
    (nc : NewConnection) (nodeId : String) (port : PortDef) (direction : PortDirection)
    (preview : Option ConnectionPreview) (hist : HistoryState (AppState V))
    (hf : ∀ e : Endpoint, nc.fromE = some e → e.nodeId ≠ "" ∧ e.port ≠ "")
    (ht : ∀ e : Endpoint, nc.toE = some e → e.nodeId ≠ "" ∧ e.port ≠ "")
    (hn : nodeId ≠ "") (hp : port.name ≠ "") :
    handlePortPointerUp nodes nodeTypes edges (some nc) nodeId port direction
      = specPortPointerUp nodes nodeTypes edges nc nodeId port direction ∧
    handlePortPointerUpGesture (some nc) preview = (none, none) ∧
    handlePointerUpGesture (some nc) preview = (none, none) ∧
    (∀ o : PointerUpOutcome, (∀ c, o ≠ .committed c) →
        applyPointerUpOutcome hist o = hist) := by
  refine ⟨?_, rfl, rfl, ?_⟩
  · cases direction with
    | input =>
      cases hfe : nc.fromE with
      | none => simp [handlePortPointerUp, specPortPointerUp, resolveEndpoints, hfe]
      | some e =>
        obtain ⟨he1, he2⟩ := hf e hfe
        simp [handlePortPointerUp, specPortPointerUp, resolveEndpoints, validateConnection,
          hfe, he1, he2, hn, hp]
    | output =>
      cases hte : nc.toE with
      | none => simp [handlePortPointerUp, specPortPointerUp, resolveEndpoints, hte]
      | some e =>
        obtain ⟨he1, he2⟩ := ht e hte
        simp [handlePortPointerUp, specPortPointerUp, resolveEndpoints, validateConnection,
          hte, he1, he2, hn, hp]
  · intro o ho
    cases o with
    | ignored => rfl
    | aborted => rfl
    | warned msg => rfl
    | committed c => exact absurd rfl (ho c)

/-- C2 witness: the theorem applied to a number→boolean drop (spec
scenario B); the concrete outcome is exactly the spec's mismatch
message. -/
theorem C2_witness :
    handlePortPointerUp wNodes wNodeTypes ([] : List Connection) (some wNC) "n3"
        ⟨"b", "boolean"⟩ .input
      = specPortPointerUp wNodes wNodeTypes ([] : List Connection) wNC "n3"
        ⟨"b", "boolean"⟩ .input ∧
    handlePortPointerUpGesture (some wNC) none = (none, none) ∧
    handlePortPointerUp wNodes wNodeTypes ([] : List Connection) (some wNC) "n3"
        ⟨"b", "boolean"⟩ .input
      = .warned "Cannot connect ports of different types: number and boolean" := by
  have hf : ∀ e : Endpoint, wNC.fromE = some e → e.nodeId ≠ "" ∧ e.port ≠ "" := by
    intro e he
    simp only [wNC, Option.some.injEq] at he
    subst he
    exact ⟨by decide, by decide⟩
  have ht : ∀ e : Endpoint, wNC.toE = some e → e.nodeId ≠ "" ∧ e.port ≠ "" := by
    intro e he
    simp [wNC] at he
  have h := C2_validation_order wNodes wNodeTypes [] wNC "n3" ⟨"b", "boolean"⟩ .input
    none ⟨[], ⟨[], []⟩, []⟩ hf ht (by decide) (by decide)
  exact ⟨h.1, h.2.1, by decide⟩

end NodeSystemProof
